import Mathlib

/-!
# Document Index & Hybrid Retrieval Engine — verification development

Shallow embedding of the core of the DMSCode repository: the `DmsService`
document cache (Index Store), its tag-mutation operations, the search router
(`semanticSearch` with its tag bypass and lexical fallback `enhancedSearch`),
the persistence layer (`saveDocumentsCache` / `loadDocumentsCache`), and the
hybrid retrieval coordinator (`DmsAssistant.handleGeneral`).

Numbers are modelled as `Rat` (exact arithmetic standing in for JS numbers),
JS strings as Lean `String` manipulated through their character lists, and
`Date` values as a structured civil-time record `JsDate`.  Fallible service
calls are modelled by explicit outcome parameters (`RemoteOutcome`,
`GraphOutcome`) so that "remote unavailable" is an ordinary input.
-/

/-! ## JS string primitives

The TypeScript source uses `trim`, `toLowerCase`, `startsWith`, `substring`,
`includes`, `indexOf` and `split(/\s+/)`.  They are modelled here on the
character list of a `String`; `\s` is modelled by the ASCII whitespace
characters (the source only ever meets ASCII whitespace). -/

/-- Whitespace test modelling the JS `\s` character class (ASCII part). -/
def isJsWs (c : Char) : Bool :=
  c = ' ' || c = '\t' || c = '\n' || c = '\r' || c = '\x0b' || c = '\x0c'

/-- `String.prototype.trim`: drop whitespace from both ends. -/
def jsTrim (s : String) : String :=
  ⟨((s.data.dropWhile isJsWs).reverse.dropWhile isJsWs).reverse⟩

/-- `String.prototype.toLowerCase` (character-wise, as for the ASCII data in use). -/
def jsToLower (s : String) : String :=
  ⟨s.data.map Char.toLower⟩

/-- `String.prototype.startsWith`. -/
def jsStartsWith (s pre : String) : Bool :=
  pre.data.isPrefixOf s.data

/-- `s.substring(n)`: drop the first `n` characters. -/
def stringDrop (n : Nat) (s : String) : String :=
  ⟨s.data.drop n⟩

/-- `s.substring(0, n)`: take the first `n` characters. -/
def stringTake (n : Nat) (s : String) : String :=
  ⟨s.data.take n⟩

/-- Helper for `String.prototype.includes`: does `t` occur inside `l`? -/
def containsSub (t : List Char) : List Char → Bool
  | [] => t.isEmpty
  | c :: rest => t.isPrefixOf (c :: rest) || containsSub t rest

/-- `s.includes(t)`. -/
def jsIncludes (s t : String) : Bool :=
  containsSub t.data s.data

/-- Helper for `String.prototype.indexOf`: position of the first occurrence. -/
def idxOfSub (t : List Char) : List Char → Option Nat
  | [] => if t.isEmpty then some 0 else none
  | c :: rest =>
    if t.isPrefixOf (c :: rest) then some 0
    else (idxOfSub t rest).map (· + 1)

/-- Split a character list at single whitespace characters.  JS
`split(/\s+/)` collapses whitespace runs; the only difference is extra empty
pieces, which the callers below discard by their `length > 1` filter. -/
def splitWsAux (cur : List Char) : List Char → List (List Char)
  | [] => [cur.reverse]
  | c :: rest =>
    if isJsWs c then cur.reverse :: splitWsAux [] rest
    else splitWsAux (c :: cur) rest

/-- JS `x || y` on strings: the empty string is falsy. -/
def jsOrStr (a : Option String) (b : String) : String :=
  match a with
  | none => b
  | some s => if s = "" then b else s

/-! ## Base64 decoding

`DmsService.getPathFromId` is `Buffer.from(id, "base64").toString("utf-8")`.
The decoder below maps base64 alphabet characters to 6-bit values (ignoring
padding and foreign characters, as Node does) and reassembles bytes; bytes
are turned into characters directly, which agrees with UTF-8 on the ASCII
paths this development evaluates. -/

/-- 6-bit value of one base64 alphabet character. -/
def b64Val (c : Char) : Option Nat :=
  if 'A' ≤ c ∧ c ≤ 'Z' then some (c.toNat - 65)
  else if 'a' ≤ c ∧ c ≤ 'z' then some (c.toNat - 97 + 26)
  else if '0' ≤ c ∧ c ≤ '9' then some (c.toNat - 48 + 52)
  else if c = '+' then some 62
  else if c = '/' then some 63
  else none

/-- Reassemble bytes from 6-bit groups (4 values give 3 bytes). -/
def b64Group : List Nat → List Nat
  | a :: b :: c :: d :: rest =>
    (a * 4 + b / 16) :: ((b % 16) * 16 + c / 4) :: ((c % 4) * 64 + d) :: b64Group rest
  | [a, b] => [a * 4 + b / 16]
  | [a, b, c] => [a * 4 + b / 16, (b % 16) * 16 + c / 4]
  | _ => []

/-- `DmsService.getPathFromId`: decode a document id back into its path. -/
def getPathFromId (id : String) : String :=
  ⟨(b64Group (id.data.filterMap b64Val)).map Char.ofNat⟩

/-! ## Data model -/

/-- Structured civil time standing in for a JS `Date` value. -/
structure JsDate where
  year : Nat
  month : Nat
  day : Nat
  hour : Nat
  minute : Nat
  second : Nat
  millisecond : Nat
deriving Repr, DecidableEq

/-- `DmsDocument` from `DmsService` (the Index Store record). -/
structure DmsDocument where
  id : String
  name : String
  path : String
  type : String
  tags : List String
  createdAt : JsDate
  modifiedAt : JsDate
  ocrText : Option String := none
  embedding : Option (List Rat) := none
  metadata : Option (List (String × String)) := none
deriving Repr, DecidableEq

/-- `SearchResult` from `DmsService`. -/
structure SearchResult where
  document : DmsDocument
  score : Rat
  snippet : String
deriving Repr, DecidableEq

/-- The error codes of `DmsErrorCode`. -/
inductive DmsErrorCode where
  | SERVICE_UNAVAILABLE
  | OCR_FAILED
  | SEARCH_FAILED
  | LLM_ERROR
  | TTS_ERROR
  | FILE_NOT_FOUND
  | INVALID_DOCUMENT
  | NETWORK_ERROR
deriving Repr, DecidableEq

/-- `DmsError` (message plus code). -/
structure DmsError where
  message : String
  code : DmsErrorCode
deriving Repr, DecidableEq

/-- The in-memory Index Store: `documentsCache : Map<string, DmsDocument>`,
keyed by absolute path, modelled as an association list in insertion order. -/
abbrev DocumentsCache := List (String × DmsDocument)

/-- `documentsCache.get(p)`: the document stored under key `p`. -/
def cacheGet (cache : DocumentsCache) (p : String) : Option DmsDocument :=
  match cache with
  | [] => none
  | e :: rest => if e.1 = p then some e.2 else cacheGet rest p

/-- Update every entry stored under key `p` (a `Map` holds at most one). -/
def updateDocument (cache : DocumentsCache) (p : String)
    (f : DmsDocument → DmsDocument) : DocumentsCache :=
  cache.map (fun e => if e.1 = p then (e.1, f e.2) else e)

/-! ## Tag Manager (`DmsService` tag operations)

Each operation can in principle raise a `DmsError` (the service methods throw
them elsewhere), so the model returns `Except DmsError`.  Persistence is
modelled by returning the updated cache. -/

/-- `DmsService.addTagToDocument`: push the tag unless already present; a
missing document is silently skipped (the `if (doc && ...)` guard). -/
def addTagToDocument (cache : DocumentsCache) (documentId tag : String) :
    Except DmsError DocumentsCache :=
  match cacheGet cache (getPathFromId documentId) with
  | some doc =>
    if doc.tags.contains tag then Except.ok cache
    else Except.ok (updateDocument cache (getPathFromId documentId)
      (fun d => { d with tags := d.tags ++ [tag] }))
  | none => Except.ok cache

/-- `DmsService.removeTagFromDocument`: filter the tag out; a missing
document is silently skipped (the `if (doc)` guard). -/
def removeTagFromDocument (cache : DocumentsCache) (documentId tag : String) :
    Except DmsError DocumentsCache :=
  match cacheGet cache (getPathFromId documentId) with
  | some _ =>
    Except.ok (updateDocument cache (getPathFromId documentId)
      (fun d => { d with tags := d.tags.filter (fun t => t ≠ tag) }))
  | none => Except.ok cache

/-- `DmsService.renameTag`: overwrite the first occurrence of `oldTag` with
`newTag` in every document that has it (`doc.tags[index] = newTag`), and
return the updated cache with the count of affected documents. -/
def renameTag (cache : DocumentsCache) (oldTag newTag : String) :
    DocumentsCache × Nat :=
  (cache.map (fun e =>
      if e.2.tags.contains oldTag then
        (e.1, { e.2 with tags := e.2.tags.set (e.2.tags.indexOf oldTag) newTag })
      else e),
   (cache.filter (fun e => e.2.tags.contains oldTag)).length)

/-- `DmsService.deleteTag`: filter the tag out of every document that has it,
returning the count of affected documents. -/
def deleteTag (cache : DocumentsCache) (tag : String) :
    DocumentsCache × Nat :=
  (cache.map (fun e =>
      if e.2.tags.contains tag then
        (e.1, { e.2 with tags := e.2.tags.filter (fun t => t ≠ tag) })
      else e),
   (cache.filter (fun e => e.2.tags.contains tag)).length)

/-! ## Search Router and Lexical Scorer -/

/-- `DmsService.getDocuments`, modelled under the standing assumption that
the scanned documents folder contains exactly the tracked files, so the scan
returns the cached records in cache order. -/
def getDocuments (cache : DocumentsCache) : List DmsDocument :=
  cache.map (fun e => e.2)

/-- `DmsService.getDocumentsByTag`: documents whose tag list contains `tag`. -/
def getDocumentsByTag (cache : DocumentsCache) (tag : String) : List DmsDocument :=
  (getDocuments cache).filter (fun d => d.tags.contains tag)

/-- Metadata object of one remote search hit. -/
structure RemoteMeta where
  title : Option String := none
  path : Option String := none
  type : Option String := none
deriving Repr, DecidableEq

/-- One item of a successful remote semantic-search response. -/
structure RemoteSearchItem where
  id : String
  text : String
  metadata : Option RemoteMeta := none
  distance : Option Rat := none
deriving Repr, DecidableEq

/-- Outcome of the `axios.post` call to the semantic-search collaborator:
either a parsed response body or any failure (timeout, refused, non-2xx). -/
inductive RemoteOutcome where
  | success (items : List RemoteSearchItem)
  | failure
deriving Repr, DecidableEq

/-- Score conversion `r.distance ? 1 / (1 + r.distance) : 0.5`.  JS
truthiness makes the distance `0` take the `0.5` branch, exactly like a
missing distance. -/
def remoteScore (distance : Option Rat) : Rat :=
  match distance with
  | some d => if d = 0 then 1 / 2 else 1 / (1 + d)
  | none => 1 / 2

/-- Mapping of one remote search hit into a `SearchResult`
(`semanticSearch`'s response mapper); `now` models `new Date()`. -/
def mapRemoteItem (now : JsDate) (r : RemoteSearchItem) : SearchResult :=
  { document :=
      { id := r.id
        name := jsOrStr (r.metadata.bind (fun m => m.title)) r.id
        path := jsOrStr (r.metadata.bind (fun m => m.path)) ""
        type := jsOrStr (r.metadata.bind (fun m => m.type)) "unknown"
        tags := []
        createdAt := now
        modifiedAt := now
        ocrText := some r.text }
    score := remoteScore r.distance
    snippet := stringTake 200 r.text }

/-- Query tokenization of `enhancedSearch`:
`query.toLowerCase().split(/\s+/).filter((t) => t.length > 1)`. -/
def queryTerms (query : String) : List String :=
  ((splitWsAux [] (jsToLower query).data).filter (fun t => t.length > 1)).map
    (fun l => (⟨l⟩ : String))

/-- Per-term score accumulation of `enhancedSearch` (name, tags, OCR text). -/
def termScore (nameLower : String) (tagsLower : List String)
    (ocrText : Option String) (term : String) : Rat :=
  (if nameLower = term then 1
   else if jsIncludes nameLower term then 3 / 5 else 0)
  + (if tagsLower.contains term then 4 / 5
     else if tagsLower.any (fun t => jsIncludes t term) then 2 / 5 else 0)
  + (if (match ocrText with
         | some o => jsIncludes (jsToLower o) term
         | none => false) then 3 / 10 else 0)

/-- Raw (pre-normalization) score of one document in `enhancedSearch`. -/
def scoreDocument (doc : DmsDocument) (terms : List String) : Rat :=
  terms.foldl
    (fun acc term =>
      acc + termScore (jsToLower doc.name) (doc.tags.map jsToLower) doc.ocrText term)
    0

/-- Snippet generation of `enhancedSearch`: a window around the first
case-insensitive occurrence of the first query term in the OCR text,
defaulting to the document name.  (An empty term list cannot reach the
occurrence search because such a document scores `0`.) -/
def makeSnippet (doc : DmsDocument) (terms : List String) : String :=
  match doc.ocrText, terms with
  | some o, t0 :: _ =>
    match idxOfSub t0.data (jsToLower o).data with
    | some i =>
      (if i - 50 > 0 then "..." else "")
        ++ (⟨(o.data.drop (i - 50)).take (Nat.min o.data.length (i + 150) - (i - 50))⟩ : String)
        ++ (if Nat.min o.data.length (i + 150) < o.data.length then "..." else "")
    | none => doc.name
  | _, _ => doc.name

/-- Stable insertion into a list kept in descending key order: `x` goes in
front of the first strictly smaller element, behind equal ones. -/
def insertByDesc (key : α → Rat) (x : α) : List α → List α
  | [] => [x]
  | y :: ys => if key x < key y then y :: insertByDesc key x ys else x :: y :: ys

/-- Stable descending sort, modelling the (specified stable) JS
`results.sort((a, b) => b.score - a.score)`. -/
def sortByDesc (key : α → Rat) (l : List α) : List α :=
  l.foldr (insertByDesc key) []

/-- `DmsService.enhancedSearch`, the Lexical Scorer: tokenize, accumulate a
score per document, keep positive scorers with the normalized score
`min(score / tokenCount, 1)`, sort by descending score and keep 10. -/
def enhancedSearch (cache : DocumentsCache) (query : String) : List SearchResult :=
  let docs := getDocuments cache
  let terms := queryTerms query
  let results := docs.filterMap (fun doc =>
    let score := scoreDocument doc terms
    if 0 < score then
      some { document := doc
             score := min (score / (terms.length : Rat)) 1
             snippet := makeSnippet doc terms }
    else none)
  (sortByDesc (fun r => r.score) results).take 10

/-- `DmsService.semanticSearch`: empty/whitespace queries return nothing;
`tag:` queries bypass ranking; otherwise the remote collaborator's items are
mapped, and any remote failure falls back to `enhancedSearch`. -/
def semanticSearch (cache : DocumentsCache) (remote : RemoteOutcome)
    (now : JsDate) (query : String) : List SearchResult :=
  if query.data.isEmpty || (jsTrim query).data.isEmpty then []
  else if jsStartsWith (jsToLower query) "tag:" then
    let tag := jsTrim (stringDrop 4 query)
    (getDocumentsByTag cache tag).map (fun doc =>
      { document := doc, score := 1, snippet := ("Tag Match: " ++ tag) })
  else
    match remote with
    | RemoteOutcome.success items => items.map (mapRemoteItem now)
    | RemoteOutcome.failure => enhancedSearch cache query

/-! ## Persistence (`saveDocumentsCache` / `loadDocumentsCache`)

The cache is persisted as one JSON document mapping each path to its record;
`JSON.stringify` turns each `Date` into its ISO-8601 string (via
`Date.prototype.toJSON`) and `loadDocumentsCache` turns the strings back with
`new Date(...)`.  The JSON text layer itself is modelled as the identity on
the tree, so the persisted artifact is a list of `(path, StoredDocument)`
pairs whose interesting content is the two date strings. -/

/-- Little-endian decimal digits with explicit fuel (structural recursion, so
the kernel can evaluate it). -/
def toDigitsRevFuel : Nat → Nat → List Nat
  | 0, _ => []
  | fuel + 1, n => if n = 0 then [] else n % 10 :: toDigitsRevFuel fuel (n / 10)

/-- Little-endian decimal digits of a number. -/
def toDigitsRev (n : Nat) : List Nat :=
  toDigitsRevFuel n n

/-- Value of a little-endian digit list. -/
def ofDigitsRev : List Nat → Nat
  | [] => 0
  | d :: ds => d + 10 * ofDigitsRev ds

/-- Decimal digit to its ASCII character. -/
def digitChar (d : Nat) : Char :=
  Char.ofNat (48 + d)

/-- ASCII character to its decimal digit value. -/
def charToDigit (c : Char) : Nat :=
  c.toNat - 48

/-- Zero-padded fixed-width decimal representation (as characters). -/
def padChars (k n : Nat) : List Char :=
  List.replicate (k - (toDigitsRev n).length) '0'
    ++ (toDigitsRev n).reverse.map digitChar

/-- Numeric value of a big-endian character numeral. -/
def charsToNat (l : List Char) : Nat :=
  ofDigitsRev ((l.map charToDigit).reverse)

/-- Character content of `Date.prototype.toISOString` (the
`YYYY-MM-DDTHH:mm:ss.sssZ` form used for years below 10000). -/
def isoChars (d : JsDate) : List Char :=
  padChars 4 d.year ++ '-' ::
    (padChars 2 d.month ++ '-' ::
      (padChars 2 d.day ++ 'T' ::
        (padChars 2 d.hour ++ ':' ::
          (padChars 2 d.minute ++ ':' ::
            (padChars 2 d.second ++ '.' ::
              (padChars 3 d.millisecond ++ ['Z']))))))

/-- `Date.prototype.toISOString` / `toJSON`. -/
def toISOString (d : JsDate) : String :=
  ⟨isoChars d⟩

/-- Field extraction of `new Date(isoString)`: read the seven numeric fields
from their positions in the fixed-width ISO form. -/
def parseIsoChars (l : List Char) : JsDate :=
  let l1 := (l.drop 4).drop 1
  let l2 := (l1.drop 2).drop 1
  let l3 := (l2.drop 2).drop 1
  let l4 := (l3.drop 2).drop 1
  let l5 := (l4.drop 2).drop 1
  let l6 := (l5.drop 2).drop 1
  { year := charsToNat (l.take 4)
    month := charsToNat (l1.take 2)
    day := charsToNat (l2.take 2)
    hour := charsToNat (l3.take 2)
    minute := charsToNat (l4.take 2)
    second := charsToNat (l5.take 2)
    millisecond := charsToNat (l6.take 3) }

/-- `new Date(s)` on the ISO strings produced by persistence. -/
def parseIsoDate (s : String) : JsDate :=
  parseIsoChars s.data

/-- One record as it sits in the persisted `dms-index.json`: the shape of
`DmsDocument` with both dates serialized to strings. -/
structure StoredDocument where
  id : String
  name : String
  path : String
  type : String
  tags : List String
  createdAt : String
  modifiedAt : String
  ocrText : Option String := none
  embedding : Option (List Rat) := none
  metadata : Option (List (String × String)) := none
deriving Repr, DecidableEq

/-- Serialization of one record (`JSON.stringify` turning dates into ISO
strings). -/
def storeDocument (d : DmsDocument) : StoredDocument :=
  { id := d.id
    name := d.name
    path := d.path
    type := d.type
    tags := d.tags
    createdAt := toISOString d.createdAt
    modifiedAt := toISOString d.modifiedAt
    ocrText := d.ocrText
    embedding := d.embedding
    metadata := d.metadata }

/-- Reconstruction of one record in `loadDocumentsCache` (the
`data[key].createdAt = new Date(data[key].createdAt)` loop). -/
def restoreDocument (sd : StoredDocument) : DmsDocument :=
  { id := sd.id
    name := sd.name
    path := sd.path
    type := sd.type
    tags := sd.tags
    createdAt := parseIsoDate sd.createdAt
    modifiedAt := parseIsoDate sd.modifiedAt
    ocrText := sd.ocrText
    embedding := sd.embedding
    metadata := sd.metadata }

/-- `DmsService.saveDocumentsCache`: serialize the full map into the
persisted index document. -/
def saveDocumentsCache (cache : DocumentsCache) : List (String × StoredDocument) :=
  cache.map (fun e => (e.1, storeDocument e.2))

/-- `DmsService.loadDocumentsCache` (the branch where the persisted index
document exists): rebuild the map, reconstructing the date fields. -/
def loadDocumentsCache (stored : List (String × StoredDocument)) : DocumentsCache :=
  stored.map (fun e => (e.1, restoreDocument e.2))

/-- Field bounds under which a `JsDate` is rendered in the fixed-width ISO
form (filesystem timestamps always satisfy them). -/
def ValidDate (d : JsDate) : Prop :=
  d.year < 10000 ∧ d.month < 100 ∧ d.day < 100 ∧ d.hour < 100
    ∧ d.minute < 100 ∧ d.second < 100 ∧ d.millisecond < 1000

instance (d : JsDate) : Decidable (ValidDate d) := by
  unfold ValidDate; infer_instance

/-! ## Hybrid Retrieval Coordinator (`DmsAssistant.handleGeneral`) -/

/-- One row of a knowledge-graph query result (the fields the coordinator
renders). -/
structure GraphEntity where
  type : String
  value : String
  confidence : String
deriving Repr, DecidableEq

/-- Outcome of `queryKnowledgeGraph`: the nested result batches of a
successful call, or any failure. -/
inductive GraphOutcome where
  | ok (batches : List (List GraphEntity))
  | failure
deriving Repr, DecidableEq

/-- The fixed keyword list of `handleGeneral` associated with
structured-entity intent. -/
def structuredKeywords : List String :=
  ["wer", "welche", "organisation", "person", "verbindung", "beziehung",
   "zusammenhang"]

/-- The graph-routing test of `handleGeneral`:
`structuredKeywords.some((kw) => prompt.toLowerCase().includes(kw))`. -/
def usesGraphRAG (prompt : String) : Bool :=
  structuredKeywords.any (fun kw => jsIncludes (jsToLower prompt) kw)

/-- Entity-query selection of `queryGraphForContext` (the second keyword
test). -/
def selectEntityQuery (prompt : String) : String :=
  if jsIncludes (jsToLower prompt) "organisation"
      || jsIncludes (jsToLower prompt) "firma" then
    "SELECT * FROM entity WHERE type = \x27organization\x27 LIMIT 10"
  else if jsIncludes (jsToLower prompt) "person"
      || jsIncludes (jsToLower prompt) "wer" then
    "SELECT * FROM entity WHERE type = \x27person\x27 LIMIT 10"
  else if jsIncludes (jsToLower prompt) "datum"
      || jsIncludes (jsToLower prompt) "wann" then
    "SELECT * FROM entity WHERE type = \x27date\x27 LIMIT 10"
  else if jsIncludes (jsToLower prompt) "betrag"
      || jsIncludes (jsToLower prompt) "preis" then
    "SELECT * FROM entity WHERE type = \x27amount\x27 LIMIT 10"
  else
    "SELECT * FROM entity ORDER BY created_at DESC LIMIT 20"

/-- `DmsAssistant.queryGraphForContext`: render the entities of the first
result batch, or `null` when the call fails or returns nothing. -/
def queryGraphForContext (graph : GraphOutcome) : Option String :=
  match graph with
  | GraphOutcome.ok batches =>
    if batches.isEmpty then none
    else some ("Gefundene Entitäten:\n"
      ++ String.join ((batches.headD []).map (fun entity =>
           "- " ++ entity.type ++ ": " ++ entity.value
             ++ " (Confidence: " ++ entity.confidence ++ ")\n")))
  | GraphOutcome.failure => none

/-- What one `handleGeneral` turn produced: the graph query sent (if any),
the assembled context bundle, and the provenance references streamed for the
search results used. -/
structure GeneralResult where
  graphQuery : Option String
  context : String
  references : List String
deriving Repr, DecidableEq

/-- `DmsAssistant.handleGeneral`: build the context from the active document
excerpt, a knowledge-graph consultation gated by `usesGraphRAG`, and — in
every case — the top 3 results of the Search Router over the prompt. -/
def handleGeneral (prompt : String) (activeDoc : Option (String × String))
    (graph : GraphOutcome) (cache : DocumentsCache) (remote : RemoteOutcome)
    (now : JsDate) : GeneralResult :=
  let baseContext :=
    match activeDoc with
    | some nameText =>
      "\nAktives Dokument (" ++ nameText.1 ++ "):\n" ++ nameText.2 ++ "\n"
    | none => ""
  let attempted := usesGraphRAG prompt
  let graphContext :=
    if attempted then
      match queryGraphForContext graph with
      | some g => "\nKnowledge Graph Informationen:\n" ++ g
      | none => ""
    else ""
  let similarDocs := semanticSearch cache remote now prompt
  let topDocs := similarDocs.take 3
  let searchContext :=
    if similarDocs.isEmpty then ""
    else
      "\nRelevante Dokumente aus dem DMS:\n"
        ++ String.join (topDocs.map (fun r =>
             "\n--- Dokument: " ++ r.document.name ++ " ---\n" ++ r.snippet ++ "\n"))
        ++ "\n---\n"
  { graphQuery := if attempted then some (selectEntityQuery prompt) else none
    context := baseContext ++ graphContext ++ searchContext
    references := topDocs.map (fun r => r.document.path) }

/-! ## The Lexical Scorer as the specification words it

For the refinement comparison, the scorer is restated below following the
specification text itself, independent of the code's control flow: score
every record by summing the per-token contributions, normalize by the token
count capped at `1`, discard zero scorers, sort by descending score, keep 10.
Following the specification's case-insensitivity property, the name and tag
comparisons are taken on the lowercased name and tags. -/

/-- Per-token contribution table of the specification: `+1.0` for an exact
name match, `+0.6` for a proper name containment, `+0.8` for an exact tag
match, `+0.4` when a tag contains the token but none equals it, `+0.3` when
the OCR text case-insensitively contains it. -/
def specTermScore (doc : DmsDocument) (t : String) : Rat :=
  (if jsToLower doc.name = t then 1
   else if jsIncludes (jsToLower doc.name) t then 3 / 5 else 0)
  + (if (doc.tags.map jsToLower).contains t then 4 / 5
     else if (doc.tags.map jsToLower).any (fun tg => jsIncludes tg t) then 2 / 5
     else 0)
  + (if (doc.ocrText.map (fun o => jsIncludes (jsToLower o) t)).getD false
     then 3 / 10 else 0)

/-- The Lexical Scorer as specified: document/score pairs after
normalization, zero-discarding, descending sort, truncation to 10.  (The
tokenization sentence of the specification coincides verbatim with the
code's `queryTerms`.) -/
def lexicalScorerSpec (cache : DocumentsCache) (query : String) :
    List (DmsDocument × Rat) :=
  let terms := queryTerms query
  let scored := (getDocuments cache).map (fun doc =>
    (doc, min (((terms.map (specTermScore doc)).sum) / (terms.length : Rat)) 1))
  (sortByDesc (fun p => p.2) (scored.filter (fun p => p.2 ≠ 0))).take 10

/-! ## Concrete fixtures for witnesses and counterexamples -/

/-- A fixed timestamp used by concrete evaluations. -/
def date0 : JsDate :=
  { year := 2024, month := 1, day := 15, hour := 10, minute := 30,
    second := 0, millisecond := 0 }

/-- A tracked document at path `"p"` (its id `"cA=="` is base64 of `"p"`)
carrying the single tag `"x"`. -/
def docX : DmsDocument :=
  { id := "cA==", name := "x.pdf", path := "p", type := "pdf",
    tags := ["x"], createdAt := date0, modifiedAt := date0 }

/-- A document tagged `a` and `b`, the shape on which `renameTag` collides. -/
def docAB : DmsDocument :=
  { id := "cA==", name := "ab.pdf", path := "p", type := "pdf",
    tags := ["a", "b"], createdAt := date0, modifiedAt := date0 }

/-- A document tagged `invoice`. -/
def docInvoice : DmsDocument :=
  { id := "aQ==", name := "Invoice_2024.pdf", path := "i", type := "pdf",
    tags := ["invoice"], createdAt := date0, modifiedAt := date0 }

/-- A document tagged `legal`. -/
def docLegal : DmsDocument :=
  { id := "bA==", name := "Contract.pdf", path := "l", type := "pdf",
    tags := ["legal"], createdAt := date0, modifiedAt := date0 }

/-- A two-document Index Store. -/
def cacheInv : DocumentsCache :=
  [("i", docInvoice), ("l", docLegal)]

/-! ## Theorems -/

/-- C10: every query that is empty or whitespace-only yields the empty
result list, for every Index Store state and every remote outcome — so
neither the remote collaborator, nor the tag bypass, nor the lexical
fallback, nor the store influences the answer. -/
theorem semanticSearch_blank_query (cache : DocumentsCache)
    (remote : RemoteOutcome) (now : JsDate) (q : String)
    (h : (jsTrim q).data = []) :
    semanticSearch cache remote now q = [] := by
  unfold semanticSearch
  rw [h]
  simp

theorem semanticSearch_blank_query_w :
    (jsTrim ("   ")).data = []
      ∧ semanticSearch cacheInv RemoteOutcome.failure date0 ("   ") = [] :=
  ⟨by decide, semanticSearch_blank_query cacheInv RemoteOutcome.failure date0 ("   ") (by decide)⟩

/-- C1 counterexample: the id `"cA=="` decodes to the path `"p"`, which the
empty Index Store does not track, yet both tag mutations return plain
success (`Except.ok`) instead of surfacing a `FileNotFound` error. -/
theorem tagOps_unknown_id_no_error :
    addTagToDocument [] ("cA==") ("x") = Except.ok []
      ∧ removeTagFromDocument [] ("cA==") ("x") = Except.ok [] := by
  exact ⟨rfl, rfl⟩

/-- C1 (amended): a tag mutation whose document id identifies no tracked
record returns successfully and leaves the Index Store unchanged; no error
of any kind is raised. -/
theorem tagOps_unknown_id_silent (cache : DocumentsCache)
    (documentId tag : String)
    (h : cacheGet cache (getPathFromId documentId) = none) :
    addTagToDocument cache documentId tag = Except.ok cache
      ∧ removeTagFromDocument cache documentId tag = Except.ok cache := by
  unfold addTagToDocument removeTagFromDocument
  rw [h]
  exact ⟨rfl, rfl⟩

theorem tagOps_unknown_id_silent_w :
    cacheGet [] (getPathFromId ("cA==")) = none
      ∧ (addTagToDocument [] ("cA==") ("y") = Except.ok []
          ∧ removeTagFromDocument [] ("cA==") ("y") = Except.ok []) :=
  ⟨by decide, tagOps_unknown_id_silent [] ("cA==") ("y") (by decide)⟩

/-- C2: `renameTag` overwrites the slot of `oldTag` without checking whether
`newTag` is already present: on a record tagged `["a", "b"]`,
`renameTag "a" "b"` leaves the duplicated tag list `["b", "b"]`, violating
the duplicate-free tag-set invariant. -/
theorem renameTag_creates_duplicate :
    (renameTag [("p", docAB)] ("a") ("b")).1
        = [("p", { docAB with tags := ["b", "b"] })]
      ∧ ¬ (["b", "b"] : List String).Nodup := by
  exact ⟨by decide, by decide⟩

/-- C5: the response mapper converts a remote distance of `0` (an exact
vector match) into score `0.5` instead of `1 / (1 + 0) = 1`, because the JS
conditional `r.distance ? ... : 0.5` treats the number `0` as falsy. -/
theorem remote_distance_zero_score :
    remoteScore (some 0) = 1 / 2
      ∧ remoteScore (some 0) ≠ 1
      ∧ (mapRemoteItem date0
            { id := "d1", text := "hello", distance := some 0 }).score = 1 / 2 := by
  refine ⟨by norm_num [remoteScore], by norm_num [remoteScore], ?_⟩
  norm_num [mapRemoteItem, remoteScore]

/-- C7 counterexample: on a document already tagged `"x"`, `addTag` is a
no-op and `removeTag` then deletes the pre-existing tag, so the round trip
does not restore the original tag set. -/
theorem addRemove_tag_not_roundtrip :
    ((addTagToDocument [("p", docX)] ("cA==") ("x")).bind
        (fun c => removeTagFromDocument c ("cA==") ("x")))
        = Except.ok [("p", { docX with tags := [] })]
      ∧ ([("p", { docX with tags := ([] : List String) })] : DocumentsCache)
          ≠ [("p", docX)] := by
  exact ⟨rfl, by decide⟩

/-- C9: the coordinator sends a knowledge-graph query exactly when the
lowercased prompt contains one of the structured keywords; the prompt
`"Wer ist der Absender?"` triggers the graph path and `"Fasse das
zusammen"` never does; and in every case the Search Router is consulted and
its top 3 results provide the referenced context documents. -/
theorem handleGeneral_graph_routing (prompt : String)
    (activeDoc : Option (String × String)) (graph : GraphOutcome)
    (cache : DocumentsCache) (remote : RemoteOutcome) (now : JsDate) :
    ((handleGeneral prompt activeDoc graph cache remote now).graphQuery.isSome
        = usesGraphRAG prompt)
      ∧ (handleGeneral ("Wer ist der Absender?") activeDoc graph cache remote
          now).graphQuery.isSome = true
      ∧ (handleGeneral ("Fasse das zusammen") activeDoc graph cache remote
          now).graphQuery.isSome = false
      ∧ (handleGeneral prompt activeDoc graph cache remote now).references
          = ((semanticSearch cache remote now prompt).take 3).map
              (fun r => r.document.path) := by
  refine ⟨?_, ?_, ?_, ?_⟩
  · by_cases h : usesGraphRAG prompt <;> simp [handleGeneral, h]
  · have h : usesGraphRAG ("Wer ist der Absender?") = true := by decide
    simp [handleGeneral, h]
  · have h : usesGraphRAG ("Fasse das zusammen") = false := by decide
    simp [handleGeneral, h]
  · simp [handleGeneral]

/-- Any property holding for every cache entry stored under `p` holds for
the looked-up document. -/
theorem lookup_prop {Q : DmsDocument → Prop} :
    ∀ {cache : DocumentsCache} {p : String} {doc : DmsDocument},
      cacheGet cache p = some doc → (∀ e ∈ cache, e.1 = p → Q e.2) → Q doc := by
  intro cache
  induction cache with
  | nil => intro p doc h; simp [cacheGet] at h
  | cons e rest ih =>
    intro p doc h hall
    by_cases hk : e.1 = p
    · simp only [cacheGet, if_pos hk, Option.some.injEq] at h
      subst h
      exact hall e (List.mem_cons_self _ _) hk
    · simp only [cacheGet, if_neg hk] at h
      exact ih h (fun e' he' hp => hall e' (List.mem_cons_of_mem _ he') hp)

/-- Looking up the updated key returns the transformed document. -/
theorem lookup_updateDocument (cache : DocumentsCache) (p : String)
    (f : DmsDocument → DmsDocument) :
    cacheGet (updateDocument cache p f) p = (cacheGet cache p).map f := by
  induction cache with
  | nil => simp [updateDocument, cacheGet]
  | cons e rest ih =>
    by_cases hk : e.1 = p
    · simp [updateDocument, cacheGet, hk]
    · simp only [updateDocument, List.map, if_neg hk, cacheGet]
      simpa [updateDocument] using ih

/-- Two updates at the same key compose. -/
theorem updateDocument_updateDocument (cache : DocumentsCache) (p : String)
    (f g : DmsDocument → DmsDocument) :
    updateDocument (updateDocument cache p f) p g
      = updateDocument cache p (fun d => g (f d)) := by
  unfold updateDocument
  rw [List.map_map]
  congr 1
  funext e
  by_cases he : e.1 = p <;> simp [Function.comp, he]

/-- C7 (amended): when the tag is not already present on the addressed
document, `addTag` then `removeTag` restores the Index Store exactly; the
counterexample `addRemove_tag_not_roundtrip` shows the restoration fails
when the tag was present, where the round trip removes it instead. -/
theorem addRemove_tag_roundtrip (cache : DocumentsCache)
    (documentId tag : String) (doc : DmsDocument)
    (hdoc : cacheGet cache (getPathFromId documentId) = some doc)
    (hfresh : ∀ e ∈ cache, e.1 = getPathFromId documentId →
      e.2.tags.contains tag = false) :
    (addTagToDocument cache documentId tag).bind
      (fun c => removeTagFromDocument c documentId tag) = Except.ok cache := by
  have hcont : doc.tags.contains tag = false :=
    lookup_prop (Q := fun d => d.tags.contains tag = false) hdoc hfresh
  unfold addTagToDocument
  rw [hdoc]
  simp only [hcont, Bool.false_eq_true, if_false, Except.bind]
  unfold removeTagFromDocument
  rw [lookup_updateDocument, hdoc]
  rw [updateDocument_updateDocument]
  have : updateDocument cache (getPathFromId documentId)
      (fun d => { { d with tags := d.tags ++ [tag] } with
        tags := ({ d with tags := d.tags ++ [tag] } : DmsDocument).tags.filter
          (fun t => t ≠ tag) }) = cache := by
    unfold updateDocument
    conv_rhs => rw [← List.map_id cache]
    apply List.map_congr_left
    intro e he
    by_cases hp : e.1 = getPathFromId documentId
    · have hmem : tag ∉ e.2.tags := by
        have := hfresh e he hp
        simpa using this
      simp only [if_pos hp]
      have hfilter : (e.2.tags ++ [tag]).filter (fun t => decide (t ≠ tag))
          = e.2.tags := by
        rw [List.filter_append]
        have h1 : List.filter (fun t => decide (t ≠ tag)) [tag] = [] := by simp
        have h2 : List.filter (fun t => decide (t ≠ tag)) e.2.tags = e.2.tags :=
          List.filter_eq_self.mpr (fun x hx => by
            simp only [decide_eq_true_iff]
            exact fun hxe => hmem (hxe ▸ hx))
        rw [h1, h2, List.append_nil]
      simp only [hfilter]
      rw [show ({ e.2 with tags := e.2.tags } : DmsDocument) = e.2 from rfl]
      simp
    · simp [if_neg hp]
  rw [this]
  rfl

theorem addRemove_tag_roundtrip_w :
    cacheGet [("p", docX)] (getPathFromId ("cA==")) = some docX
      ∧ (addTagToDocument [("p", docX)] ("cA==") ("z")).bind
          (fun c => removeTagFromDocument c ("cA==") ("z"))
          = Except.ok [("p", docX)] :=
  ⟨by decide, addRemove_tag_roundtrip [("p", docX)] ("cA==") ("z") docX
    (by decide) (by decide)⟩

/-- Dropping a prefix cannot consume a final element the predicate rejects. -/
theorem dropWhile_append_singleton_ne_nil (p : Char → Bool) (l : List Char)
    (c : Char) (h : p c = false) : (l ++ [c]).dropWhile p ≠ [] := by
  induction l with
  | nil => simp [List.dropWhile, h]
  | cons a as ih =>
    by_cases ha : p a
    · simpa [List.dropWhile_cons, ha] using ih
    · simp [List.dropWhile_cons, ha]

/-- A string whose first character is not whitespace does not trim to
empty. -/
theorem jsTrim_ne_nil (c : Char) (rest : List Char) (h : isJsWs c = false) :
    (jsTrim ⟨c :: rest⟩).data ≠ [] := by
  unfold jsTrim
  show (((c :: rest).dropWhile isJsWs).reverse.dropWhile isJsWs).reverse ≠ []
  rw [List.dropWhile_cons, if_neg (by simp [h])]
  rw [List.reverse_cons]
  simp only [ne_eq, List.reverse_eq_nil_iff]
  exact dropWhile_append_singleton_ne_nil isJsWs rest.reverse c h

/-- Lowercasing leaves every whitespace character unchanged. -/
theorem toLower_of_ws (c : Char) (h : isJsWs c = true) :
    Char.toLower c = c := by
  simp only [isJsWs, Bool.or_eq_true, decide_eq_true_eq] at h
  rcases h with ((((h | h) | h) | h) | h) | h <;> subst h <;> decide

/-- C3: a `tag:`-prefixed query bypasses ranking: for every remote outcome
(so also when the remote collaborator is unreachable) the result is exactly
the documents whose tag list contains the trimmed value after the prefix,
each with score `1` and snippet `"Tag Match: <value>"`. -/
theorem semanticSearch_tag_bypass (cache : DocumentsCache)
    (remote : RemoteOutcome) (now : JsDate) (q : String)
    (h : jsStartsWith (jsToLower q) ("tag:") = true) :
    semanticSearch cache remote now q
      = (getDocumentsByTag cache (jsTrim (stringDrop 4 q))).map (fun doc =>
          { document := doc, score := 1,
            snippet := ("Tag Match: " ++ jsTrim (stringDrop 4 q)) }) := by
  obtain ⟨data⟩ := q
  cases data with
  | nil => exact absurd h (by decide)
  | cons c cs =>
    have hc : Char.toLower c = 't' := by
      have hh := h
      simp only [jsStartsWith, jsToLower, List.isPrefixOf, Bool.and_eq_true,
        beq_iff_eq, show ("tag:" : String).data = ['t', 'a', 'g', ':'] from rfl,
        List.map] at hh
      exact hh.1.symm
    have hcw : isJsWs c = false := by
      by_contra hw
      rw [Bool.not_eq_false] at hw
      rw [toLower_of_ws c hw] at hc
      subst hc
      exact absurd hw (by decide)
    have htrim : (jsTrim ⟨c :: cs⟩).data ≠ [] := jsTrim_ne_nil c cs hcw
    have hcond : ((⟨c :: cs⟩ : String).data.isEmpty
        || (jsTrim ⟨c :: cs⟩).data.isEmpty) = false := by
      simp [List.isEmpty_iff, htrim]
    unfold semanticSearch
    simp only [hcond, Bool.false_eq_true, if_false]
    rw [if_pos h]

theorem semanticSearch_tag_bypass_w :
    jsStartsWith (jsToLower ("tag:invoice")) ("tag:") = true
      ∧ semanticSearch cacheInv RemoteOutcome.failure date0 ("tag:invoice")
          = (getDocumentsByTag cacheInv
                (jsTrim (stringDrop 4 ("tag:invoice")))).map (fun doc =>
              { document := doc, score := 1,
                snippet := ("Tag Match: "
                  ++ jsTrim (stringDrop 4 ("tag:invoice"))) }) :=
  ⟨by decide, semanticSearch_tag_bypass cacheInv RemoteOutcome.failure date0
    ("tag:invoice") (by decide)⟩

/-- C4: for a non-blank, non-`tag:` query, a failed remote call never raises:
the router returns exactly the Lexical Scorer (`enhancedSearch`) applied to
the query and the full Index Store. -/
theorem semanticSearch_failure_fallback (cache : DocumentsCache) (now : JsDate)
    (q : String) (h1 : (jsTrim q).data.isEmpty = false)
    (h2 : jsStartsWith (jsToLower q) ("tag:") = false) :
    semanticSearch cache RemoteOutcome.failure now q = enhancedSearch cache q := by
  have hq : q.data.isEmpty = false := by
    obtain ⟨data⟩ := q
    cases data with
    | nil => exact absurd h1 (by decide)
    | cons c cs => rfl
  unfold semanticSearch
  simp only [hq, h1, Bool.or_false, Bool.false_eq_true, if_false, h2]

theorem semanticSearch_failure_fallback_w :
    (jsTrim ("invoice")).data.isEmpty = false
      ∧ jsStartsWith (jsToLower ("invoice")) ("tag:") = false
      ∧ semanticSearch cacheInv RemoteOutcome.failure date0 ("invoice")
          = enhancedSearch cacheInv ("invoice") :=
  ⟨by decide, by decide, semanticSearch_failure_fallback cacheInv date0
    ("invoice") (by decide) (by decide)⟩

/-- Accumulating a sum by `foldl` equals the sum of the mapped list. -/
theorem foldl_add_map_sum (f : α → Rat) (l : List α) (a : Rat) :
    l.foldl (fun acc x => acc + f x) a = a + (l.map f).sum := by
  induction l generalizing a with
  | nil => simp
  | cons x xs ih => simp [ih, add_assoc]

/-- The per-term score of the code coincides with the specification's
contribution table. -/
theorem termScore_eq_specTermScore (doc : DmsDocument) (t : String) :
    termScore (jsToLower doc.name) (doc.tags.map jsToLower) doc.ocrText t
      = specTermScore doc t := by
  cases h : doc.ocrText <;> simp [termScore, specTermScore, h]

/-- The accumulated document score is the sum of the specification's
per-token contributions. -/
theorem scoreDocument_eq (doc : DmsDocument) (terms : List String) :
    scoreDocument doc terms = (terms.map (specTermScore doc)).sum := by
  unfold scoreDocument
  rw [foldl_add_map_sum]
  rw [funext (termScore_eq_specTermScore doc)]
  simp

/-- Every per-token contribution is nonnegative. -/
theorem specTermScore_nonneg (doc : DmsDocument) (t : String) :
    0 ≤ specTermScore doc t := by
  unfold specTermScore
  split_ifs <;> norm_num

/-- Mapping commutes with the stable descending insertion when the keys
agree. -/
theorem map_insertByDesc (f : α → β) (ka : α → Rat) (kb : β → Rat)
    (hk : ∀ a, kb (f a) = ka a) (x : α) (l : List α) :
    (insertByDesc ka x l).map f = insertByDesc kb (f x) (l.map f) := by
  induction l with
  | nil => rfl
  | cons y ys ih =>
    simp only [insertByDesc, List.map_cons]
    by_cases h : ka x < ka y
    · rw [if_pos h, if_pos (by rw [hk, hk]; exact h)]
      simp [ih]
    · rw [if_neg h, if_neg (by rw [hk, hk]; exact h)]
      simp

/-- Mapping commutes with the stable descending sort when the keys agree. -/
theorem map_sortByDesc (f : α → β) (ka : α → Rat) (kb : β → Rat)
    (hk : ∀ a, kb (f a) = ka a) (l : List α) :
    (sortByDesc ka l).map f = sortByDesc kb (l.map f) := by
  induction l with
  | nil => rfl
  | cons x xs ih =>
    show (insertByDesc ka x (sortByDesc ka xs)).map f
      = insertByDesc kb (f x) (sortByDesc kb (xs.map f))
    rw [map_insertByDesc f ka kb hk, ih]


/-- The accumulated score of the Lexical Scorer is nonnegative. -/
theorem scoreDocument_nonneg (doc : DmsDocument) (terms : List String) :
    0 ≤ scoreDocument doc terms := by
  rw [scoreDocument_eq]
  apply List.sum_nonneg
  intro x hx
  obtain ⟨t, _, rfl⟩ := List.mem_map.mp hx
  exact specTermScore_nonneg doc t

/-- Keeping the positive scorers before normalization equals keeping the
nonzero normalized scorers: the structural core of the Lexical Scorer
pipeline. -/
theorem filterMap_scored_eq_filter (terms : List String) :
    ∀ docs : List DmsDocument,
      (docs.filterMap (fun doc =>
          if 0 < scoreDocument doc terms then
            some ({ document := doc,
                    score := min (scoreDocument doc terms / (terms.length : Rat)) 1,
                    snippet := makeSnippet doc terms } : SearchResult)
          else none)).map (fun r => (r.document, r.score))
        = (docs.map (fun doc =>
            (doc, min (scoreDocument doc terms / (terms.length : Rat)) 1))).filter
            (fun p => p.2 ≠ 0) := by
  intro docs
  induction docs with
  | nil => rfl
  | cons doc ds ih =>
    by_cases hpos : 0 < scoreDocument doc terms
    · have hn : 0 < ((terms.length : Nat) : Rat) := by
        rcases Nat.eq_zero_or_pos terms.length with h0 | hp
        · exfalso
          have hterms : terms = [] := List.length_eq_zero.mp h0
          rw [hterms] at hpos
          simp [scoreDocument] at hpos
        · exact_mod_cast hp
      have hmin : 0 < min (scoreDocument doc terms / (terms.length : Rat)) 1 :=
        lt_min (div_pos hpos hn) one_pos
      simp only [List.filterMap_cons]
      rw [if_pos hpos]
      simp only [List.map_cons, List.filter_cons]
      rw [if_pos (by simpa using ne_of_gt hmin)]
      rw [ih]
    · have hz : scoreDocument doc terms = 0 :=
        le_antisymm (not_lt.mp hpos) (scoreDocument_nonneg doc terms)
      simp only [List.filterMap_cons]
      rw [if_neg hpos]
      simp only [List.map_cons, List.filter_cons]
      rw [if_neg (by simp [hz])]
      exact ih

/-- C6: the Lexical Scorer implemented by `enhancedSearch` computes, on the
document/score level, exactly the pipeline the specification describes
(`lexicalScorerSpec`): tokenize, accumulate the contribution table per
record, normalize by `min(accumulated / tokenCount, 1)`, discard zero
scorers, sort by descending score, truncate to 10. -/
theorem enhancedSearch_matches_lexicalScorerSpec (cache : DocumentsCache)
    (q : String) :
    (enhancedSearch cache q).map (fun r => (r.document, r.score))
      = lexicalScorerSpec cache q := by
  unfold enhancedSearch lexicalScorerSpec
  rw [List.map_take]
  rw [map_sortByDesc (fun (r : SearchResult) => (r.document, r.score))
    (fun (r : SearchResult) => r.score) (fun (p : DmsDocument × Rat) => p.2)
    (fun _ => rfl)]
  rw [filterMap_scored_eq_filter (queryTerms q) (getDocuments cache)]
  have hfun : (fun doc =>
      (doc, min (scoreDocument doc (queryTerms q) / ((queryTerms q).length : Rat)) 1))
        = (fun doc =>
      (doc, min ((((queryTerms q).map (specTermScore doc)).sum)
        / ((queryTerms q).length : Rat)) 1)) :=
    funext (fun doc => by rw [scoreDocument_eq])
  rw [hfun]

/-- Reading back the little-endian digits recovers the number. -/
theorem ofDigitsRev_toDigitsRevFuel :
    ∀ fuel n : Nat, n ≤ fuel → ofDigitsRev (toDigitsRevFuel fuel n) = n := by
  intro fuel
  induction fuel with
  | zero =>
    intro n h
    have : n = 0 := Nat.le_zero.mp h
    subst this
    rfl
  | succ f ih =>
    intro n h
    by_cases hn : n = 0
    · subst hn; simp [toDigitsRevFuel, ofDigitsRev]
    · simp only [toDigitsRevFuel, if_neg hn, ofDigitsRev]
      rw [ih (n / 10) (by omega)]
      omega

/-- Every produced digit is below 10. -/
theorem mem_toDigitsRevFuel_lt :
    ∀ fuel n : Nat, ∀ x ∈ toDigitsRevFuel fuel n, x < 10 := by
  intro fuel
  induction fuel with
  | zero => intro n x hx; simp [toDigitsRevFuel] at hx
  | succ f ih =>
    intro n x hx
    by_cases hn : n = 0
    · subst hn; simp [toDigitsRevFuel] at hx
    · simp only [toDigitsRevFuel, if_neg hn, List.mem_cons] at hx
      rcases hx with hx | hx
      · omega
      · exact ih (n / 10) x hx

/-- A number below `10 ^ k` has at most `k` digits. -/
theorem toDigitsRevFuel_length_le :
    ∀ fuel k n : Nat, n ≤ fuel → n < 10 ^ k →
      (toDigitsRevFuel fuel n).length ≤ k := by
  intro fuel
  induction fuel with
  | zero => intro k n h hk; simp [toDigitsRevFuel]
  | succ f ih =>
    intro k n h hk
    by_cases hn : n = 0
    · subst hn; simp [toDigitsRevFuel]
    · cases k with
      | zero => simp at hk; omega
      | succ k' =>
        simp only [toDigitsRevFuel, if_neg hn, List.length_cons]
        have h1 : n / 10 ≤ f := by omega
        have h2 : n / 10 < 10 ^ k' := by
          have hk' : n < 10 ^ k' * 10 := by
            rw [← pow_succ]
            exact hk
          omega
        exact Nat.succ_le_succ (ih k' (n / 10) h1 h2)

/-- Decimal digit/character round trip. -/
theorem charToDigit_digitChar : ∀ d < 10, charToDigit (digitChar d) = d := by
  decide

/-- Trailing zero digits do not change the value of a little-endian list. -/
theorem ofDigitsRev_append_zeros (l : List Nat) (j : Nat) :
    ofDigitsRev (l ++ List.replicate j 0) = ofDigitsRev l := by
  induction l with
  | nil =>
    rw [List.nil_append]
    induction j with
    | zero => rfl
    | succ j' ihj => simpa [List.replicate_succ, ofDigitsRev] using ihj
  | cons d ds ih => simp [ofDigitsRev, ih]

/-- Parsing a zero-padded numeral recovers the number. -/
theorem charsToNat_padChars (k n : Nat) : charsToNat (padChars k n) = n := by
  unfold charsToNat padChars
  rw [List.map_append, List.map_replicate, List.map_map]
  have h0 : charToDigit '0' = 0 := rfl
  rw [h0]
  have hdig : (toDigitsRev n).reverse.map (charToDigit ∘ digitChar)
      = (toDigitsRev n).reverse := by
    conv_rhs => rw [← List.map_id ((toDigitsRev n).reverse)]
    apply List.map_congr_left
    intro x hx
    exact charToDigit_digitChar x
      (mem_toDigitsRevFuel_lt n n x (List.mem_reverse.mp hx))
  rw [hdig, List.reverse_append, List.reverse_reverse, List.reverse_replicate]
  rw [ofDigitsRev_append_zeros]
  exact ofDigitsRev_toDigitsRevFuel n n le_rfl

/-- A number below `10 ^ k` pads to exactly `k` characters. -/
theorem padChars_length (k n : Nat) (h : n < 10 ^ k) :
    (padChars k n).length = k := by
  unfold padChars
  rw [List.length_append, List.length_replicate, List.length_map,
    List.length_reverse]
  have := toDigitsRevFuel_length_le n k n le_rfl h
  unfold toDigitsRev
  omega

/-- Taking the length of the left summand of an append returns it. -/
theorem take_append_len {α} (l r : List α) (k : Nat) (h : l.length = k) :
    (l ++ r).take k = l := by
  subst h
  induction l with
  | nil => rfl
  | cons a as ih => simp only [List.cons_append, List.length_cons,
      List.take_succ_cons, ih]

/-- Dropping the length of the left summand of an append removes it. -/
theorem drop_append_len {α} (l r : List α) (k : Nat) (h : l.length = k) :
    (l ++ r).drop k = r := by
  subst h
  induction l with
  | nil => rfl
  | cons a as ih => simp only [List.cons_append, List.length_cons,
      List.drop_succ_cons, ih]

/-- The ISO-8601 date codec round-trips every in-range `JsDate`. -/
theorem parseIso_toISO (d : JsDate) (h : ValidDate d) :
    parseIsoDate (toISOString d) = d := by
  obtain ⟨y, mo, dd, hh, mi, ss, ms⟩ := d
  obtain ⟨h1, h2, h3, h4, h5, h6, h7⟩ := h
  have e4 : (padChars 4 y).length = 4 :=
    padChars_length 4 y (lt_of_lt_of_le h1 (by norm_num))
  have e2mo : (padChars 2 mo).length = 2 :=
    padChars_length 2 mo (lt_of_lt_of_le h2 (by norm_num))
  have e2dd : (padChars 2 dd).length = 2 :=
    padChars_length 2 dd (lt_of_lt_of_le h3 (by norm_num))
  have e2hh : (padChars 2 hh).length = 2 :=
    padChars_length 2 hh (lt_of_lt_of_le h4 (by norm_num))
  have e2mi : (padChars 2 mi).length = 2 :=
    padChars_length 2 mi (lt_of_lt_of_le h5 (by norm_num))
  have e2ss : (padChars 2 ss).length = 2 :=
    padChars_length 2 ss (lt_of_lt_of_le h6 (by norm_num))
  have e3ms : (padChars 3 ms).length = 3 :=
    padChars_length 3 ms (lt_of_lt_of_le h7 (by norm_num))
  show parseIsoChars (isoChars ⟨y, mo, dd, hh, mi, ss, ms⟩) = _
  unfold parseIsoChars isoChars
  rw [take_append_len _ _ 4 e4, drop_append_len _ _ 4 e4]
  simp only [List.drop_succ_cons, List.drop_zero]
  rw [take_append_len _ _ 2 e2mo, drop_append_len _ _ 2 e2mo]
  simp only [List.drop_succ_cons, List.drop_zero]
  rw [take_append_len _ _ 2 e2dd, drop_append_len _ _ 2 e2dd]
  simp only [List.drop_succ_cons, List.drop_zero]
  rw [take_append_len _ _ 2 e2hh, drop_append_len _ _ 2 e2hh]
  simp only [List.drop_succ_cons, List.drop_zero]
  rw [take_append_len _ _ 2 e2mi, drop_append_len _ _ 2 e2mi]
  simp only [List.drop_succ_cons, List.drop_zero]
  rw [take_append_len _ _ 2 e2ss, drop_append_len _ _ 2 e2ss]
  simp only [List.drop_succ_cons, List.drop_zero]
  rw [take_append_len _ _ 3 e3ms]
  simp only [charsToNat_padChars]

/-- C8: persisting the Index Store and loading it back yields the identical
record map; in particular both timestamps survive the serialize-to-string /
parse round trip exactly. -/
theorem persistence_roundtrip (cache : DocumentsCache)
    (h : ∀ e ∈ cache, ValidDate e.2.createdAt ∧ ValidDate e.2.modifiedAt) :
    loadDocumentsCache (saveDocumentsCache cache) = cache := by
  unfold loadDocumentsCache saveDocumentsCache
  rw [List.map_map]
  conv_rhs => rw [← List.map_id cache]
  apply List.map_congr_left
  intro e he
  obtain ⟨hc, hm⟩ := h e he
  show (e.1, restoreDocument (storeDocument e.2)) = e
  have hdoc : restoreDocument (storeDocument e.2) = e.2 := by
    unfold restoreDocument storeDocument
    rw [parseIso_toISO e.2.createdAt hc, parseIso_toISO e.2.modifiedAt hm]
  rw [hdoc]

theorem persistence_roundtrip_w :
    (∀ e ∈ ([("p", docX)] : DocumentsCache),
        ValidDate e.2.createdAt ∧ ValidDate e.2.modifiedAt)
      ∧ loadDocumentsCache (saveDocumentsCache [("p", docX)]) = [("p", docX)] :=
  ⟨by decide, persistence_roundtrip [("p", docX)] (by decide)⟩
